import Mathlib

/-!
Shallow embedding of the registry secondary-index core
(`registry/index/index.go`, `registry/handlers/tag_status.go` and the
index HTTP handler) together with proofs about its data model and
operations.

Modelling conventions:
* The two SQLite tables `repositories` and `tags` are modelled as lists
  kept in rowid order.  `REPLACE INTO` deletes every row with the same
  unique key and appends a fresh row (a fresh, strictly larger rowid),
  `UPDATE ... WHERE` maps over rows in place, `DELETE ... WHERE` filters.
* `time.Now()` is passed in explicitly as a `Nat` clock reading.
* Environmental database failures (`db.Exec` / `db.Query` errors) are
  abstracted: the event-sink loop `writeLoop` is parameterised by the
  per-event handlers, each of which may report an error, and the concrete
  `Write` instantiates it with the pure handlers that always succeed.
  Note that a SQLite `UPDATE` touching zero rows is *not* an error.
* SQLite `LIKE` is embedded with its default semantics: `%` matches any
  run of characters, an underscore matches a single character, and
  comparison is ASCII case-insensitive (sqlite3UpperToLower), which is
  exactly Lean's `Char.toLower` ASCII folding.
-/

/-- Embeds the constant `defaultLimit = 20` of `index.go`. -/
def defaultLimit : Int := 20

/-- Embeds `manifest.ManifestMediaType` from the external
docker/distribution `manifest` package: the media type that marks an
event target as a top-level manifest. -/
def manifestMediaType : String := "application/vnd.docker.distribution.manifest.v1+json"

/-- Embeds `notifications.EventActionPush`. -/
def EventActionPush : String := "push"

/-- Embeds `notifications.EventActionDelete`. -/
def EventActionDelete : String := "delete"

/-- Embeds the `Tag` struct of `index.go` (one row of the `tags` table).
The `UpdatedAt` timestamp is a `Nat` clock reading. -/
structure Tag where
  Repository : String
  Tag : String
  Digest : String
  Url : String
  Status : String
  Description : String
  TargetURL : String
  UpdatedAt : Nat
deriving DecidableEq

/-- Embeds the `Repository` struct of `index.go` (one element of the
`GetPage` result: a repository name with its full tag set). -/
structure Repository where
  Repository : String
  Tags : List Tag
deriving DecidableEq

/-- Embeds the `QueryArgs` struct of `index.go`. -/
structure QueryArgs where
  Keyword : String
  Skip : Int
  Limit : Int
deriving DecidableEq

/-- Embeds `notifications.Event.Target` (the fields used by the sink). -/
structure Target where
  MediaType : String
  Repository : String
  Digest : String
  URL : String
deriving DecidableEq

/-- Embeds `notifications.Event` (the fields used by the sink). -/
structure Event where
  Action : String
  Target : Target
deriving DecidableEq

/-- The state owned by the catalog store: the `repositories` and `tags`
tables of the SQLite database, each in rowid order. -/
structure IndexDB where
  repositories : List String
  tags : List Tag
deriving DecidableEq

/-- The catalog just after `New` has created the empty schema. -/
def emptyIdx : IndexDB := ⟨[], []⟩

/-- Embeds `QueryArgs.prepare` of `index.go`: a negative skip becomes 0,
a limit below 1 becomes `defaultLimit`. -/
def QueryArgs.prepare (self : QueryArgs) : QueryArgs :=
  let s1 := if self.Skip < 0 then { self with Skip := 0 } else self
  if s1.Limit < 1 then { s1 with Limit := defaultLimit } else s1

/-- SQLite's default `LIKE` character folding (sqlite3UpperToLower):
ASCII uppercase letters fold to lowercase, everything else is itself.
`Char.toLower` is exactly this ASCII fold. -/
def foldChar (c : Char) : Char := c.toLower

/-- Fuelled implementation of SQLite's default `LIKE` matcher over the
pattern and the candidate string: `'%'` matches any run of characters,
`'_'` matches exactly one character, and ordinary characters compare
after `foldChar`.  The fuel only serves termination; `likeMatch` always
supplies enough. -/
def likeAux : Nat → List Char → List Char → Bool
  | 0, _, _ => false
  | _ + 1, [], s => s.isEmpty
  | fuel + 1, c :: p, s =>
    if c = '%' then
      likeAux fuel p s ||
        (match s with
         | [] => false
         | _ :: s2 => likeAux fuel (c :: p) s2)
    else
      match s with
      | [] => false
      | d :: s2 =>
        if c = '_' then likeAux fuel p s2
        else foldChar c == foldChar d && likeAux fuel p s2

/-- SQLite's default `LIKE`: `likeMatch pattern s` decides
`s LIKE pattern`. -/
def likeMatch (p s : List Char) : Bool := likeAux (p.length + s.length + 1) p s

namespace IndexService

/-- Embeds `strings.Split(url, "/")` from the Go standard library for
the fixed single-character separator `'/'`: the list of `/`-separated
pieces (a string without `/` yields one piece, the string itself). -/
def splitOnSlash : List Char → List (List Char)
  | [] => [[]]
  | c :: rest =>
    if c = '/' then [] :: splitOnSlash rest
    else
      match splitOnSlash rest with
      | [] => [[c]]
      | p :: ps => (c :: p) :: ps

/-- Embeds `IndexService.parseTag` of `index.go`: split the URL on `/`
and return the last piece when there are at least two pieces, else the
empty string. -/
def parseTag (url : String) : String :=
  let parts := splitOnSlash url.data
  if parts.length > 1 then String.mk (parts.getLastD []) else ""

/-- Embeds `IndexService.add` of `index.go`:
`replace into repositories(repository) values(?)` followed by
`replace into tags(...) values(?,?,?,?,?,'unset','','')`.
`REPLACE` removes every row with the same unique key and appends a fresh
row at the end (fresh largest rowid).  `now` is the `time.Now()`
reading. -/
def add (now : Nat) (event : Event) (db : IndexDB) : IndexDB :=
  let target := event.Target
  let tag := parseTag target.URL
  { repositories := db.repositories.filter (fun r => r != target.Repository) ++ [target.Repository]
    tags := db.tags.filter (fun row => !(row.Repository == target.Repository && row.Tag == tag)) ++
      [{ Repository := target.Repository, Tag := tag, Digest := target.Digest, Url := target.URL,
         Status := "unset", Description := "", TargetURL := "", UpdatedAt := now }] }

/-- Embeds `IndexService.delete` of `index.go`:
`delete from tags where repository=? and tag=?` followed (on success) by
`delete from repositories where repository not in (select distinct
repository from tags)`. -/
def delete (event : Event) (db : IndexDB) : IndexDB :=
  let tag := parseTag event.Target.URL
  let tags := db.tags.filter
    (fun row => !(row.Repository == event.Target.Repository && row.Tag == tag))
  { repositories := db.repositories.filter (fun r => tags.any (fun row => row.Repository == r))
    tags := tags }

/-- Per-event dispatch of `IndexService.Write` of `index.go`: events
whose target media type is not the manifest media type, or whose action
is neither delete nor push, are skipped without touching the store and
without an error.  The push/delete handlers are passed in explicitly so
that environmental database failures can be expressed. -/
def dispatch {σ ε : Type} (addF delF : Event → σ → σ × Option ε)
    (event : Event) (db : σ) : σ × Option ε :=
  if event.Target.MediaType == manifestMediaType then
    if event.Action == EventActionDelete then delF event db
    else if event.Action == EventActionPush then addF event db
    else (db, none)
  else (db, none)

/-- The batch loop of `IndexService.Write` of `index.go`: process events
in order, stopping at (and returning) the first error; the state already
mutated by earlier events is kept. -/
def writeLoop {σ ε : Type} (addF delF : Event → σ → σ × Option ε) :
    List Event → σ → σ × Option ε
  | [], db => (db, none)
  | event :: rest, db =>
    match dispatch addF delF event db with
    | (db2, none) => writeLoop addF delF rest db2
    | (db2, some err) => (db2, some err)

/-- Embeds `IndexService.Write` of `index.go` in the error-free run:
the loop instantiated with the pure `add`/`delete` handlers. -/
def Write (now : Nat) (events : List Event) (db : IndexDB) : IndexDB :=
  (writeLoop (fun event db => (add now event db, (none : Option Unit)))
             (fun event db => (delete event db, none)) events db).1

/-- The effect of one event in an error-free run of `Write` (the body of
the loop with the pure handlers). -/
def stepOne (now : Nat) (event : Event) (db : IndexDB) : IndexDB :=
  if event.Target.MediaType == manifestMediaType then
    if event.Action == EventActionDelete then delete event db
    else if event.Action == EventActionPush then add now event db
    else db
  else db

/-- Embeds `IndexService.GetPage` of `index.go`:
`select repository from repositories [where repository like '%'||kw||'%']
limit ? offset ?` (rowid scan order), then for each returned repository
`select ... from tags where repository = ?`. -/
def GetPage (args : QueryArgs) (db : IndexDB) : List Repository :=
  let args := args.prepare
  let rows :=
    if args.Keyword.length > 0 then
      db.repositories.filter (fun r => likeMatch ('%' :: args.Keyword.data ++ ['%']) r.data)
    else db.repositories
  ((rows.drop args.Skip.toNat).take args.Limit.toNat).map
    (fun r => { Repository := r, Tags := db.tags.filter (fun row => row.Repository == r) })

/-- Embeds `IndexService.SetTagStatus` of `index.go`:
`update tags set status=?, description=?, target_url=? where
repository=? and tag=?`.  An `UPDATE` matching zero rows is a successful
statement (`db.Exec` reports no error), so the operation itself never
signals a missing row. -/
def SetTagStatus (repo tag status description target_url : String) (db : IndexDB) : IndexDB :=
  { db with
    tags := db.tags.map (fun row =>
      if row.Repository == repo && row.Tag == tag then
        { row with Status := status, Description := description, TargetURL := target_url }
      else row) }

end IndexService

/-- Go map lookup `req[key]` on the decoded JSON object of
`tag_status.go`: a missing key decodes as the empty string. -/
def lookupField (body : List (String × String)) (key : String) : String :=
  match body.find? (fun kv => kv.1 == key) with
  | some kv => kv.2
  | none => ""

/-- Embeds `tagStatusHandler.SetTagStatus` of `tag_status.go`.  `body`
is the decoded JSON object (`none` when the body is not valid JSON,
mapped to 400).  Otherwise the handler calls
`IndexService.SetTagStatus`; since a zero-row `UPDATE` yields a nil
error from `db.Exec` (and `db.Exec` never yields `sql.ErrNoRows`), the
`err == sql.ErrNoRows` (404) and `err != nil` (500) branches can only
fire on an environmental database failure, never on a missing
(repository, tag) row, and the handler writes 204. -/
def SetTagStatusHandler (body : Option (List (String × String))) (db : IndexDB) :
    Nat × IndexDB :=
  match body with
  | none => (400, db)
  | some req =>
    (204, IndexService.SetTagStatus (lookupField req "repository") (lookupField req "tag")
      (lookupField req "status") (lookupField req "description")
      (lookupField req "target_url") db)

/-- Decides whether a character is an ASCII decimal digit. -/
def decDigit (c : Char) : Bool := decide ('0' ≤ c ∧ c ≤ '9')

/-- The digit-accumulation loop of `strconv.Atoi` from the Go standard
library: consume decimal digits left to right, failing on the first
non-digit character. -/
def atoiLoop : List Char → Nat → Option Nat
  | [], acc => some acc
  | c :: rest, acc =>
    if decDigit c then atoiLoop rest (10 * acc + (c.toNat - 48)) else none

/-- The largest Go `int` (64-bit) value, `1<<63 - 1`. -/
def maxInt64 : Int := 9223372036854775807

/-- The smallest Go `int` (64-bit) value, `-1 << 63`. -/
def minInt64 : Int := -9223372036854775808

/-- `strconv.Atoi`'s range behaviour: a parsed value outside the
64-bit signed range is saturated to `maxInt64` / `minInt64` (the value
`ParseInt` returns alongside `ErrRange`). -/
def clampInt64 (n : Int) : Int :=
  if n > maxInt64 then maxInt64 else if n < minInt64 then minInt64 else n

/-- Embeds `strconv.Atoi(s)` as used by the index HTTP handler, which
discards the error: an optional sign followed by a non-empty run of
decimal digits parses to its value saturated into the 64-bit signed
range (on `ErrRange`, `Atoi` returns `maxInt64`/`minInt64` alongside
the discarded error); anything else — empty string, bare sign, or any
non-digit character — yields 0 (the zero value `Atoi` returns
alongside a syntax error). -/
def goAtoi (s : String) : Int :=
  match s.data with
  | [] => 0
  | c :: rest =>
    if c = '+' then
      if rest = [] then 0 else
        match atoiLoop rest 0 with
        | some n => clampInt64 (n : Int)
        | none => 0
    else if c = '-' then
      if rest = [] then 0 else
        match atoiLoop rest 0 with
        | some n => clampInt64 (-(n : Int))
        | none => 0
    else
      match atoiLoop (c :: rest) 0 with
      | some n => clampInt64 (n : Int)
      | none => 0

/-- Embeds `indexHandler.GetPage`'s construction of the query arguments
from the raw `skip`, `limit` and `keyword` request parameters  (the
handler passes them to `IndexService.GetPage`, which applies
`QueryArgs.prepare`). -/
def handlerQueryArgs (skipStr limitStr keyword : String) : QueryArgs :=
  { Keyword := keyword, Skip := goAtoi skipStr, Limit := goAtoi limitStr }

/-- Modelled from the spec: the decimal value of a digit string. -/
def decimalVal (l : List Char) : Nat :=
  l.foldl (fun acc c => 10 * acc + (c.toNat - 48)) 0

/-- Modelled from the spec: the string `s` denotes the integer `n` as an
optionally signed decimal literal. -/
def represents (s : String) (n : Int) : Prop :=
  (s.data ≠ [] ∧ (∀ c ∈ s.data, decDigit c = true) ∧ n = (decimalVal s.data : Int)) ∨
  (∃ l, s.data = '+' :: l ∧ l ≠ [] ∧ (∀ c ∈ l, decDigit c = true) ∧ n = (decimalVal l : Int)) ∨
  (∃ l, s.data = '-' :: l ∧ l ≠ [] ∧ (∀ c ∈ l, decDigit c = true) ∧ n = -(decimalVal l : Int))

/-- Modelled from the spec: `isPrefixList p s` decides whether `p` is a
prefix of `s`. -/
def isPrefixList : List Char → List Char → Bool
  | [], _ => true
  | _ :: _, [] => false
  | c :: p, d :: s => c == d && isPrefixList p s

/-- Modelled from the spec: `containsSub kw s` decides whether `kw`
occurs as a contiguous substring of `s`. -/
def containsSub (kw : List Char) : List Char → Bool
  | [] => isPrefixList kw []
  | d :: rest => isPrefixList kw (d :: rest) || containsSub kw rest

/-- Modelled from the spec: case-sensitive substring containment of one
string in another. -/
def containsCS (kw s : String) : Bool := containsSub kw.data s.data

/-- Modelled from the spec: ASCII case-insensitive substring containment
of one string in another. -/
def containsCI (kw s : String) : Bool :=
  containsSub (kw.data.map foldChar) (s.data.map foldChar)

/-- The repository-existence invariant of the data model: a repository
row exists iff at least one tag row references it. -/
def CatalogInv (db : IndexDB) : Prop :=
  ∀ r, r ∈ db.repositories ↔ ∃ row, row ∈ db.tags ∧ row.Repository = r

/-! ## Helper lemmas about the event-sink loop -/

theorem dispatch_pure (now : Nat) (event : Event) (db : IndexDB) :
    IndexService.dispatch (fun e d => (IndexService.add now e d, (none : Option Unit)))
      (fun e d => (IndexService.delete e d, none)) event db
      = (IndexService.stepOne now event db, none) := by
  by_cases h1 : (event.Target.MediaType == manifestMediaType) = true <;>
    by_cases h2 : (event.Action == EventActionDelete) = true <;>
    by_cases h3 : (event.Action == EventActionPush) = true <;>
    simp [IndexService.dispatch, IndexService.stepOne, h1, h2, h3]

theorem Write_nil (now : Nat) (db : IndexDB) : IndexService.Write now [] db = db := rfl

theorem Write_cons (now : Nat) (event : Event) (rest : List Event) (db : IndexDB) :
    IndexService.Write now (event :: rest) db
      = IndexService.Write now rest (IndexService.stepOne now event db) := by
  simp only [IndexService.Write, IndexService.writeLoop, dispatch_pure]

/-! ## C1 -/

/-- C1 (code bug): patching a (repository, tag) pair with no existing
row does NOT return 404.  At the failing input — a well-formed PATCH
body naming repository "r" and tag "t" against the empty catalog — the
handler answers HTTP 204 and leaves the catalog unchanged (no row is
created), because the zero-row `UPDATE` yields a nil error from
`db.Exec` and the handler's `err == sql.ErrNoRows` branch can never
fire.  The claim's 404 contradicts the code; the no-side-effect part
holds. -/
theorem claim1_missing_patch_answers_204 :
    SetTagStatusHandler
      (some [("repository", "r"), ("tag", "t"), ("status", "verified"),
             ("description", "d"), ("target_url", "u")]) emptyIdx
      = (204, emptyIdx) := by decide

/-! ## C7 -/

/-- C7: starting from the empty catalog, pushing tag T of repository R
(the tag derived from the event URL) and then deleting the same tag
leaves zero tag rows and zero repository rows — the catalog is empty
again. -/
theorem claim7_push_then_delete_resets (R url digest : String) (now : Nat) :
    IndexService.Write now
      [⟨EventActionPush, ⟨manifestMediaType, R, digest, url⟩⟩,
       ⟨EventActionDelete, ⟨manifestMediaType, R, digest, url⟩⟩] emptyIdx = emptyIdx := by
  rw [Write_cons, Write_cons, Write_nil]
  simp [IndexService.stepOne, IndexService.add, IndexService.delete, emptyIdx,
    EventActionPush, EventActionDelete, manifestMediaType]

/-! ## C4 -/

/-- C4: a push event is idempotent — applying `add` twice from the same
starting state (with the same clock reading, since the event determines
the row) gives the same catalog as applying it once — and after a push
there is exactly one tag row under the (repository, tag) unique key,
with status "unset" and empty description and target reference. -/
theorem claim4_push_idempotent (now : Nat) (e : Event) (db : IndexDB) :
    IndexService.add now e (IndexService.add now e db) = IndexService.add now e db ∧
    (IndexService.add now e db).tags.filter
        (fun row => row.Repository == e.Target.Repository &&
          row.Tag == IndexService.parseTag e.Target.URL)
      = [{ Repository := e.Target.Repository, Tag := IndexService.parseTag e.Target.URL,
           Digest := e.Target.Digest, Url := e.Target.URL,
           Status := "unset", Description := "", TargetURL := "", UpdatedAt := now }] := by
  constructor
  · simp [IndexService.add, List.filter_append, List.filter_filter]
  · simp [IndexService.add, List.filter_append, List.filter_filter]

/-! ## C5 -/

/-- C5: patching a tag's status touches nothing but the status,
description and target-reference fields of the rows under the addressed
(repository, tag) key: the repositories table is unchanged, the tags
table keeps its length and order, every row keeps its repository, tag,
digest, URL and updated-at fields, rows under the addressed key get
exactly the supplied status/description/target reference, and every
other row is entirely unchanged. -/
theorem claim5_patch_isolation (db : IndexDB) (repo tag status description target_url : String) :
    (IndexService.SetTagStatus repo tag status description target_url db).repositories
       = db.repositories ∧
    List.Forall₂ (fun oldRow newRow : Tag =>
        newRow.Repository = oldRow.Repository ∧ newRow.Tag = oldRow.Tag ∧
        newRow.Digest = oldRow.Digest ∧ newRow.Url = oldRow.Url ∧
        newRow.UpdatedAt = oldRow.UpdatedAt ∧
        (oldRow.Repository = repo ∧ oldRow.Tag = tag →
          newRow.Status = status ∧ newRow.Description = description ∧
            newRow.TargetURL = target_url) ∧
        (¬(oldRow.Repository = repo ∧ oldRow.Tag = tag) → newRow = oldRow))
      db.tags (IndexService.SetTagStatus repo tag status description target_url db).tags := by
  refine ⟨rfl, ?_⟩
  show List.Forall₂ _ db.tags (db.tags.map _)
  rw [List.forall₂_map_right_iff, List.forall₂_same]
  intro x _
  by_cases hb : (x.Repository == repo && x.Tag == tag) = true
  · have hx : x.Repository = repo ∧ x.Tag = tag := by
      simpa [Bool.and_eq_true, beq_iff_eq] using hb
    simp [hb, hx]
  · have hx : ¬(x.Repository = repo ∧ x.Tag = tag) := by
      simpa [Bool.and_eq_true, beq_iff_eq] using hb
    simp [hb, hx]

/-! ## C6 -/

theorem splitOnSlash_no_slash (l : List Char) (h : '/' ∉ l) :
    IndexService.splitOnSlash l = [l] := by
  induction l with
  | nil => rfl
  | cons c rest ih =>
    have hc : c ≠ '/' := fun e => h (by simp [e])
    have hr : '/' ∉ rest := fun m => h (List.mem_cons_of_mem _ m)
    simp [IndexService.splitOnSlash, hc, ih hr]

theorem splitOnSlash_slash_decomp (xs last : List Char) (h : '/' ∉ last) :
    ∃ mid, IndexService.splitOnSlash (xs ++ '/' :: last) = mid ++ [last] ∧ mid ≠ [] := by
  induction xs with
  | nil =>
    exact ⟨[[]], by simp [IndexService.splitOnSlash, splitOnSlash_no_slash last h], by simp⟩
  | cons c xs ih =>
    obtain ⟨mid, hmid, hne⟩ := ih
    by_cases hc : c = '/'
    · subst hc
      exact ⟨[] :: mid, by simp [IndexService.splitOnSlash, hmid], by simp⟩
    · cases mid with
      | nil => exact absurd rfl hne
      | cons m ms =>
        refine ⟨(c :: m) :: ms, ?_, by simp⟩
        simp [IndexService.splitOnSlash, hc, hmid]

/-- C6: the tag name the sink derives from an event target URL (used by
both the push handler `add` and the delete handler `delete`, which call
`parseTag`) is the final slash-delimited segment of the URL, and the
empty string when the URL contains no slash. -/
theorem claim6_tag_from_last_segment :
    (∀ pre last : String, '/' ∉ last.data →
      IndexService.parseTag (pre ++ "/" ++ last) = last) ∧
    (∀ url : String, '/' ∉ url.data → IndexService.parseTag url = "") := by
  constructor
  · intro pre last h
    obtain ⟨mid, hmid, hne⟩ := splitOnSlash_slash_decomp pre.data last.data h
    have hdata : (pre ++ "/" ++ last).data = pre.data ++ '/' :: last.data := by
      simp [String.data_append]
    rw [IndexService.parseTag, hdata, hmid]
    have hlen : 1 < (mid ++ [last.data]).length := by
      cases mid with
      | nil => exact absurd rfl hne
      | cons m ms => simp
    rw [if_pos hlen, List.getLastD_concat]
  · intro url h
    rw [IndexService.parseTag, splitOnSlash_no_slash url.data h]
    simp

/-- Witness for C6 at concrete inputs: a URL ending in "/manifests/v1.2"
yields tag name "v1.2", and a URL with no slash yields the empty tag. -/
theorem claim6_tag_from_last_segment_witness :
    IndexService.parseTag ("http://registry/v2/foo/manifests" ++ "/" ++ "v1.2") = "v1.2" ∧
    IndexService.parseTag "latest" = "" :=
  ⟨claim6_tag_from_last_segment.1 "http://registry/v2/foo/manifests" "v1.2" (by decide),
   claim6_tag_from_last_segment.2 "latest" (by decide)⟩

/-! ## C3 -/

theorem inv_add (now : Nat) (e : Event) (db : IndexDB) (h : CatalogInv db) :
    CatalogInv (IndexService.add now e db) := by
  intro r
  simp only [IndexService.add, List.mem_append, List.mem_filter, List.mem_singleton,
    Bool.not_eq_eq_eq_not, Bool.not_true, Bool.and_eq_false_imp, beq_eq_false_iff_ne,
    bne_iff_ne, ne_eq, beq_iff_eq]
  constructor
  · rintro (⟨hmem, hne⟩ | rfl)
    · obtain ⟨row, hrow, hrep⟩ := (h r).mp hmem
      exact ⟨row, Or.inl ⟨hrow, fun hR => absurd (hrep.symm.trans hR) hne⟩, hrep⟩
    · exact ⟨_, Or.inr rfl, rfl⟩
  · rintro ⟨row, (⟨hrow, _⟩ | rfl), hrep⟩
    · by_cases hrR : r = e.Target.Repository
      · exact Or.inr hrR
      · exact Or.inl ⟨(h r).mpr ⟨row, hrow, hrep⟩, hrR⟩
    · exact Or.inr hrep.symm

theorem inv_delete (e : Event) (db : IndexDB) (h : CatalogInv db) :
    CatalogInv (IndexService.delete e db) := by
  intro r
  simp only [IndexService.delete, List.mem_filter, List.any_eq_true, beq_iff_eq]
  constructor
  · rintro ⟨_, row, hrow, hrep⟩
    exact ⟨row, hrow, hrep⟩
  · rintro ⟨row, hrow, hrep⟩
    exact ⟨(h r).mpr ⟨row, hrow.1, hrep⟩, row, hrow, hrep⟩

theorem inv_stepOne (now : Nat) (e : Event) (db : IndexDB) (h : CatalogInv db) :
    CatalogInv (IndexService.stepOne now e db) := by
  unfold IndexService.stepOne
  split
  · split
    · exact inv_delete e db h
    · split
      · exact inv_add now e db h
      · exact h
  · exact h

theorem inv_write (now : Nat) (events : List Event) (db : IndexDB) (h : CatalogInv db) :
    CatalogInv (IndexService.Write now events db) := by
  induction events generalizing db with
  | nil => exact h
  | cons e rest ih =>
    rw [Write_cons]
    exact ih _ (inv_stepOne now e db h)

/-- C3: after any sequence of successfully processed events starting
from the empty catalog, a repository row exists iff at least one tag row
references that repository.  Each delete event's prune runs atomically
with it here, which is exactly the claim's exclusion of the crash window
between `deleteTag` and `pruneOrphanRepositories`. -/
theorem claim3_repository_existence_invariant (now : Nat) (events : List Event) (r : String) :
    r ∈ (IndexService.Write now events emptyIdx).repositories ↔
      ∃ row, row ∈ (IndexService.Write now events emptyIdx).tags ∧ row.Repository = r := by
  exact inv_write now events emptyIdx (by intro s; simp [emptyIdx]) r

/-! ## C10 -/

theorem writeLoop_cons {σ ε : Type} (addF delF : Event → σ → σ × Option ε)
    (e : Event) (rest : List Event) (db : σ) :
    IndexService.writeLoop addF delF (e :: rest) db =
      match IndexService.dispatch addF delF e db with
      | (db2, none) => IndexService.writeLoop addF delF rest db2
      | (db2, some err) => (db2, some err) := rfl

theorem dispatch_irrelevant {σ ε : Type} (addF delF : Event → σ → σ × Option ε)
    (e : Event) (s : σ)
    (h : e.Target.MediaType ≠ manifestMediaType ∨
      (e.Action ≠ EventActionPush ∧ e.Action ≠ EventActionDelete)) :
    IndexService.dispatch addF delF e s = (s, none) := by
  rcases h with h | ⟨hp, hd⟩
  · simp [IndexService.dispatch, h]
  · simp [IndexService.dispatch, hp, hd]

theorem stepOne_irrelevant (now : Nat) (e : Event) (db : IndexDB)
    (h : e.Target.MediaType ≠ manifestMediaType ∨
      (e.Action ≠ EventActionPush ∧ e.Action ≠ EventActionDelete)) :
    IndexService.stepOne now e db = db := by
  rcases h with h | ⟨hp, hd⟩
  · simp [IndexService.stepOne, h]
  · simp [IndexService.stepOne, hp, hd]

/-- C10: an event whose target media type is not the manifest media
type, or whose action is neither push nor delete, contributes nothing:
deleting it from a batch does not change the resulting catalog (both
tables are untouched by it), and its dispatch invokes no handler and
reports no error, for every choice of (possibly failing) handlers. -/
theorem claim10_irrelevant_events_skipped (σ ε : Type)
    (addF delF : Event → σ → σ × Option ε) (s : σ)
    (now : Nat) (e : Event) (pre post : List Event) (db : IndexDB)
    (h : e.Target.MediaType ≠ manifestMediaType ∨
      (e.Action ≠ EventActionPush ∧ e.Action ≠ EventActionDelete)) :
    IndexService.Write now (pre ++ e :: post) db = IndexService.Write now (pre ++ post) db ∧
    IndexService.dispatch addF delF e s = (s, none) := by
  refine ⟨?_, dispatch_irrelevant addF delF e s h⟩
  induction pre generalizing db with
  | nil =>
    rw [List.nil_append, List.nil_append, Write_cons, stepOne_irrelevant now e db h]
  | cons p pre' ih =>
    rw [List.cons_append, List.cons_append, Write_cons, Write_cons]
    exact ih _

/-- Witness for C10: a pull event on a manifest target changes nothing
in a batch and dispatches no handler. -/
theorem claim10_irrelevant_events_skipped_witness :
    IndexService.Write 0
        [⟨EventActionPush, ⟨manifestMediaType, "r", "d", "u/t"⟩⟩,
         ⟨"pull", ⟨manifestMediaType, "r", "d", "u/t"⟩⟩,
         ⟨EventActionPush, ⟨manifestMediaType, "r2", "d2", "u/t2"⟩⟩] emptyIdx
      = IndexService.Write 0
        [⟨EventActionPush, ⟨manifestMediaType, "r", "d", "u/t"⟩⟩,
         ⟨EventActionPush, ⟨manifestMediaType, "r2", "d2", "u/t2"⟩⟩] emptyIdx ∧
    IndexService.dispatch (fun _ n => (n + 1, (none : Option String)))
        (fun _ n => (n, some "boom"))
        ⟨"pull", ⟨manifestMediaType, "r", "d", "u/t"⟩⟩ (0 : Nat) = (0, none) :=
  claim10_irrelevant_events_skipped Nat String
    (fun _ n => (n + 1, (none : Option String))) (fun _ n => (n, some "boom")) 0 0
    ⟨"pull", ⟨manifestMediaType, "r", "d", "u/t"⟩⟩
    [⟨EventActionPush, ⟨manifestMediaType, "r", "d", "u/t"⟩⟩]
    [⟨EventActionPush, ⟨manifestMediaType, "r2", "d2", "u/t2"⟩⟩]
    emptyIdx (Or.inr ⟨by decide, by decide⟩)

/-! ## C9 -/

/-- C9: the batch loop of the event sink returns the first error it
encounters and processes no later event: if the events before the
failing one all succeed, producing intermediate state `db1`, and the
failing event's processing on `db1` yields state `db2` and an error,
then the whole batch yields exactly `db2` and that error, whatever
events follow — earlier mutations (and the failing handler's) are kept,
later events are never dispatched. -/
theorem claim9_first_error_aborts_batch (σ ε : Type)
    (addF delF : Event → σ → σ × Option ε)
    (pre : List Event) (e : Event) (post : List Event) (db db1 db2 : σ) (err : ε)
    (hpre : IndexService.writeLoop addF delF pre db = (db1, none))
    (hfail : IndexService.writeLoop addF delF [e] db1 = (db2, some err)) :
    IndexService.writeLoop addF delF (pre ++ e :: post) db = (db2, some err) := by
  have hdisp : IndexService.dispatch addF delF e db1 = (db2, some err) := by
    rw [writeLoop_cons] at hfail
    rcases hD : IndexService.dispatch addF delF e db1 with ⟨s, o⟩
    rw [hD] at hfail
    cases o with
    | none => simp [IndexService.writeLoop] at hfail
    | some er => simpa using hfail
  induction pre generalizing db with
  | nil =>
    have hdb : db = db1 := by simpa [IndexService.writeLoop] using hpre
    subst hdb
    rw [List.nil_append, writeLoop_cons, hdisp]
  | cons p pre' ih =>
    rw [writeLoop_cons] at hpre
    rw [List.cons_append, writeLoop_cons]
    rcases hD : IndexService.dispatch addF delF p db with ⟨s, o⟩
    rw [hD] at hpre
    cases o with
    | none => exact ih s hpre
    | some er => simp at hpre

/-- Witness for C9: with a delete handler that fails, a batch
push-delete-push applies the push, returns the delete's error, and never
processes the trailing push. -/
theorem claim9_first_error_aborts_batch_witness :
    IndexService.writeLoop
        (fun _ n => (n + 1, (none : Option String)))
        (fun _ n => (n, some "boom"))
        [⟨EventActionPush, ⟨manifestMediaType, "r", "d", "u/t"⟩⟩,
         ⟨EventActionDelete, ⟨manifestMediaType, "r", "d", "u/t"⟩⟩,
         ⟨EventActionPush, ⟨manifestMediaType, "r2", "d2", "u/t2"⟩⟩] (0 : Nat)
      = (1, some "boom") :=
  claim9_first_error_aborts_batch Nat String
    (fun _ n => (n + 1, (none : Option String))) (fun _ n => (n, some "boom"))
    [⟨EventActionPush, ⟨manifestMediaType, "r", "d", "u/t"⟩⟩]
    ⟨EventActionDelete, ⟨manifestMediaType, "r", "d", "u/t"⟩⟩
    [⟨EventActionPush, ⟨manifestMediaType, "r2", "d2", "u/t2"⟩⟩]
    0 1 1 "boom" (by decide) (by decide)

/-! ## C8 -/

theorem atoiLoop_all_digits (l : List Char) (hdig : ∀ c ∈ l, decDigit c = true) :
    ∀ acc, atoiLoop l acc = some (l.foldl (fun acc c => 10 * acc + (c.toNat - 48)) acc) := by
  induction l with
  | nil => intro acc; rfl
  | cons c rest ih =>
    intro acc
    have hc : decDigit c = true := hdig c (by simp)
    rw [atoiLoop, if_pos hc, List.foldl_cons]
    exact ih (fun d hm => hdig d (by simp [hm])) _

theorem atoiLoop_some_digits (l : List Char) (acc v : Nat)
    (h : atoiLoop l acc = some v) : ∀ c ∈ l, decDigit c = true := by
  induction l generalizing acc with
  | nil => simp
  | cons c rest ih =>
    by_cases hc : decDigit c = true
    · rw [atoiLoop, if_pos hc] at h
      intro d hd
      rcases List.mem_cons.mp hd with rfl | hd
      · exact hc
      · exact ih _ h d hd
    · rw [atoiLoop, if_neg hc] at h
      exact absurd h (by simp)

theorem digit_not_sign (c : Char) (h : decDigit c = true) : c ≠ '+' ∧ c ≠ '-' := by
  constructor <;> rintro rfl <;> simp [decDigit] at h

theorem goAtoi_represents (s : String) (n : Int) (h : represents s n) :
    goAtoi s = clampInt64 n := by
  rcases h with ⟨hne, hdig, hval⟩ | ⟨l, hl, hlne, hdig, hval⟩ | ⟨l, hl, hlne, hdig, hval⟩
  · rcases hd : s.data with _ | ⟨c, rest⟩
    · exact absurd hd hne
    · have hc : decDigit c = true := hdig c (by rw [hd]; simp)
      obtain ⟨hcp, hcm⟩ := digit_not_sign c hc
      rw [goAtoi, hd]
      simp only [hcp, hcm, if_false,
        atoiLoop_all_digits (c :: rest) (fun d hm => hdig d (by rw [hd]; exact hm)) 0]
      rw [hval, hd]
      rfl
  · rw [goAtoi, hl]
    simp only [if_pos rfl, hlne, if_false, atoiLoop_all_digits l hdig 0]
    rw [hval]
    rfl
  · have hmp : ('-' : Char) = '+' ↔ False := by simp
    rw [goAtoi, hl]
    simp only [hmp, if_false, if_pos rfl, hlne, atoiLoop_all_digits l hdig 0]
    rw [hval]
    rfl

theorem goAtoi_unrepresentable (s : String) (h : ∀ n : Int, ¬ represents s n) :
    goAtoi s = 0 := by
  rcases hd : s.data with _ | ⟨c, rest⟩
  · rw [goAtoi, hd]
  · by_cases hcp : c = '+'
    · subst hcp
      by_cases hr : rest = []
      · rw [goAtoi, hd]
        simp [hr]
      · rcases hA : atoiLoop rest 0 with _ | v
        · rw [goAtoi, hd]
          simp [hr, hA]
        · exfalso
          have hdig := atoiLoop_some_digits rest 0 v hA
          exact h (decimalVal rest) (Or.inr (Or.inl ⟨rest, hd, hr, hdig, rfl⟩))
    · by_cases hcm : c = '-'
      · subst hcm
        by_cases hr : rest = []
        · rw [goAtoi, hd]
          simp [hr]
        · rcases hA : atoiLoop rest 0 with _ | v
          · rw [goAtoi, hd]
            simp [hr, hA]
          · exfalso
            have hdig := atoiLoop_some_digits rest 0 v hA
            exact h (-(decimalVal rest : Int)) (Or.inr (Or.inr ⟨rest, hd, hr, hdig, rfl⟩))
      · rcases hA : atoiLoop (c :: rest) 0 with _ | v
        · rw [goAtoi, hd]
          simp [hcp, hcm, hA]
        · exfalso
          have hdig := atoiLoop_some_digits (c :: rest) 0 v hA
          refine h (decimalVal (c :: rest)) (Or.inl ⟨?_, ?_, ?_⟩)
          · rw [hd]; simp
          · intro d hm
            exact hdig d (by rw [hd] at hm; exact hm)
          · rw [hd]

theorem clampInt64_nonneg (n : Int) (h : 0 ≤ n) :
    clampInt64 n = if n ≤ maxInt64 then n else maxInt64 := by
  simp only [clampInt64, maxInt64, minInt64]
  split_ifs <;> omega

theorem clampInt64_neg (n : Int) (h : n < 0) : clampInt64 n < 0 := by
  simp only [clampInt64, maxInt64, minInt64]
  split_ifs <;> omega

theorem clampInt64_lt_one (n : Int) (h : n ≤ 0) : clampInt64 n < 1 := by
  simp only [clampInt64, maxInt64, minInt64]
  split_ifs <;> omega

theorem prepare_eval (kw : String) (a b : Int) :
    (QueryArgs.mk kw a b).prepare
      = ⟨kw, if a < 0 then 0 else a, if b < 1 then defaultLimit else b⟩ := by
  unfold QueryArgs.prepare
  by_cases h1 : a < 0 <;> by_cases h2 : b < 1 <;> simp [h1, h2]

/-- C8: the effective pagination arguments of an index query are
computed from the raw `skip` and `limit` parameters by parsing with a
discarded error and then `prepare`: skip is the parsed value when the
parameter denotes a non-negative integer (saturated to `maxInt64` when
the denoted value exceeds the 64-bit signed range, exactly the value
`Atoi` reports alongside the discarded range error, and the denoted
value itself whenever it is in range) and 0 when the parameter denotes
a negative integer or denotes no integer at all; limit is likewise the
parsed (saturated) value when the parameter denotes a positive integer
and the default 20 otherwise; the keyword is passed through. -/
theorem claim8_effective_pagination (skipStr limitStr kw : String) :
    ((handlerQueryArgs skipStr limitStr kw).prepare.Keyword = kw) ∧
    (∀ n : Int, represents skipStr n → 0 ≤ n →
      (handlerQueryArgs skipStr limitStr kw).prepare.Skip
        = if n ≤ maxInt64 then n else maxInt64) ∧
    (∀ n : Int, represents skipStr n → n < 0 →
      (handlerQueryArgs skipStr limitStr kw).prepare.Skip = 0) ∧
    ((∀ n : Int, ¬ represents skipStr n) →
      (handlerQueryArgs skipStr limitStr kw).prepare.Skip = 0) ∧
    (∀ n : Int, represents limitStr n → 0 < n →
      (handlerQueryArgs skipStr limitStr kw).prepare.Limit
        = if n ≤ maxInt64 then n else maxInt64) ∧
    (∀ n : Int, represents limitStr n → n ≤ 0 →
      (handlerQueryArgs skipStr limitStr kw).prepare.Limit = 20) ∧
    ((∀ n : Int, ¬ represents limitStr n) →
      (handlerQueryArgs skipStr limitStr kw).prepare.Limit = 20) := by
  unfold handlerQueryArgs
  rw [prepare_eval]
  refine ⟨rfl, ?_, ?_, ?_, ?_, ?_, ?_⟩
  · intro n hn hpos
    rw [goAtoi_represents skipStr n hn, clampInt64_nonneg n hpos]
    by_cases hm : n ≤ maxInt64
    · simp [hm, not_lt.mpr hpos]
    · have hmax : ¬ (maxInt64 < 0) := by decide
      simp [hm, hmax]
  · intro n hn hneg
    rw [goAtoi_represents skipStr n hn]
    simp [clampInt64_neg n hneg]
  · intro hno
    rw [goAtoi_unrepresentable skipStr hno]
    simp
  · intro n hn hpos
    rw [goAtoi_represents limitStr n hn, clampInt64_nonneg n (by omega)]
    by_cases hm : n ≤ maxInt64
    · have h1 : ¬ n < 1 := by omega
      simp [hm, h1]
    · have h1 : ¬ (maxInt64 < 1) := by decide
      simp [hm, h1]
  · intro n hn hnp
    rw [goAtoi_represents limitStr n hn]
    simp [clampInt64_lt_one n hnp, defaultLimit]
  · intro hno
    rw [goAtoi_unrepresentable limitStr hno]
    simp [defaultLimit]

/-- Witness for C8: skip "7" (an in-range non-negative integer) is used
as is, limit "abc" (unparsable) coerces to the default 20, and a skip
of 2^63 (just past the 64-bit range) saturates to maxInt64. -/
theorem claim8_effective_pagination_witness :
    (handlerQueryArgs "7" "abc" "k").prepare.Skip = 7 ∧
    (handlerQueryArgs "7" "abc" "k").prepare.Limit = 20 ∧
    (handlerQueryArgs "9223372036854775808" "5" "k").prepare.Skip = 9223372036854775807 :=
  ⟨((claim8_effective_pagination "7" "abc" "k").2.1 7
      (Or.inl ⟨by decide, by decide, by decide⟩) (by decide)).trans (by decide),
   (claim8_effective_pagination "7" "abc" "k").2.2.2.2.2.2 (by
      intro n hn
      rcases hn with ⟨_, hdig, _⟩ | ⟨l, hl, _⟩ | ⟨l, hl, _⟩
      · exact absurd (hdig 'a' (by decide)) (by decide)
      · rw [show "abc".data = ['a', 'b', 'c'] from rfl] at hl
        exact absurd (List.head_eq_of_cons_eq hl) (by decide)
      · rw [show "abc".data = ['a', 'b', 'c'] from rfl] at hl
        exact absurd (List.head_eq_of_cons_eq hl) (by decide)),
   ((claim8_effective_pagination "9223372036854775808" "5" "k").2.1 9223372036854775808
      (Or.inl ⟨by decide, by decide, by decide⟩) (by decide)).trans (by decide)⟩

/-! ## C2 -/

theorem likeAux_congr : ∀ (n m : Nat) (p s : List Char),
    p.length + s.length < n → p.length + s.length < m →
    likeAux n p s = likeAux m p s := by
  intro n
  induction n with
  | zero => intro m p s h1 h2; omega
  | succ n ih =>
    intro m p s h1 h2
    cases m with
    | zero => omega
    | succ m =>
      cases p with
      | nil => simp [likeAux]
      | cons c p' =>
        simp only [List.length_cons] at h1 h2
        simp only [likeAux]
        by_cases hc : c = '%'
        · subst hc
          rw [if_pos rfl, if_pos rfl]
          congr 1
          · exact ih m p' s (by omega) (by omega)
          · cases s with
            | nil => rfl
            | cons d s2 =>
              simp only [List.length_cons] at h1 h2
              exact ih m ('%' :: p') s2 (by simp; omega) (by simp; omega)
        · rw [if_neg hc, if_neg hc]
          cases s with
          | nil => rfl
          | cons d s2 =>
            simp only [List.length_cons] at h1 h2
            show (if c = '_' then likeAux n p' s2
                  else foldChar c == foldChar d && likeAux n p' s2)
                = (if c = '_' then likeAux m p' s2
                  else foldChar c == foldChar d && likeAux m p' s2)
            by_cases hu : c = '_'
            · rw [if_pos hu, if_pos hu]
              exact ih m p' s2 (by omega) (by omega)
            · rw [if_neg hu, if_neg hu]
              congr 1
              exact ih m p' s2 (by omega) (by omega)

theorem likeMatch_nil (s : List Char) : likeMatch [] s = s.isEmpty := by
  simp [likeMatch, likeAux]

theorem likeMatch_eq_likeAux (n : Nat) (p s : List Char) (h : p.length + s.length < n) :
    likeAux n p s = likeMatch p s :=
  likeAux_congr n (p.length + s.length + 1) p s h (by omega)

theorem likeMatch_percent (p s : List Char) :
    likeMatch ('%' :: p) s
      = (likeMatch p s ||
          match s with
          | [] => false
          | _ :: s2 => likeMatch ('%' :: p) s2) := by
  rw [likeMatch]
  show likeAux (p.length + 1 + s.length + 1) ('%' :: p) s = _
  simp only [likeAux, eq_self_iff_true, if_true]
  congr 1
  · exact likeMatch_eq_likeAux (p.length + 1 + s.length) p s (by omega)
  · cases s with
    | nil => rfl
    | cons d s2 =>
      show likeAux (p.length + 1 + (d :: s2).length) ('%' :: p) s2 = likeMatch ('%' :: p) s2
      exact likeMatch_eq_likeAux (p.length + 1 + (d :: s2).length) ('%' :: p) s2
        (by simp)

theorem likeMatch_cons_nil (c : Char) (p : List Char) (h : c ≠ '%') :
    likeMatch (c :: p) [] = false := by
  rw [likeMatch]
  simp only [likeAux, if_neg h]

theorem likeMatch_underscore (p : List Char) (d : Char) (s : List Char) :
    likeMatch ('_' :: p) (d :: s) = likeMatch p s := by
  have hne : ('_' : Char) ≠ '%' := by decide
  rw [likeMatch]
  simp only [likeAux, if_neg hne, if_pos rfl]
  exact likeMatch_eq_likeAux _ p s (by simp; omega)

theorem likeMatch_lit (c : Char) (p : List Char) (d : Char) (s : List Char)
    (h1 : c ≠ '%') (h2 : c ≠ '_') :
    likeMatch (c :: p) (d :: s) = (foldChar c == foldChar d && likeMatch p s) := by
  rw [likeMatch]
  simp only [likeAux, if_neg h1, if_neg h2]
  congr 1
  exact likeMatch_eq_likeAux _ p s (by simp; omega)

theorem likeMatch_percent_iff (p s : List Char) :
    likeMatch ('%' :: p) s = true ↔ ∃ a b, s = a ++ b ∧ likeMatch p b = true := by
  induction s with
  | nil =>
    rw [likeMatch_percent]
    simp only [Bool.or_eq_true]
    constructor
    · rintro (h | h)
      · exact ⟨[], [], rfl, h⟩
      · exact absurd h (by simp)
    · rintro ⟨a, b, hab, hb⟩
      obtain ⟨rfl, rfl⟩ := List.append_eq_nil.mp hab.symm
      exact Or.inl hb
  | cons d s2 ih =>
    rw [likeMatch_percent]
    simp only [Bool.or_eq_true, ih]
    constructor
    · rintro (h | ⟨a, b, hab, hb⟩)
      · exact ⟨[], d :: s2, rfl, h⟩
      · exact ⟨d :: a, b, by rw [hab]; rfl, hb⟩
    · rintro ⟨a, b, hab, hb⟩
      cases a with
      | nil =>
        left
        rw [List.nil_append] at hab
        rw [← hab] at hb
        exact hb
      | cons x a' =>
        right
        rw [List.cons_append] at hab
        injection hab with h1 h2
        exact ⟨a', b, h2, hb⟩

theorem likeMatch_percent_only (s : List Char) : likeMatch ['%'] s = true := by
  rw [likeMatch_percent_iff]
  exact ⟨s, [], by simp, by rw [likeMatch_nil]; rfl⟩

theorem likeMatch_literal_append_iff (kw : List Char) (p : List Char)
    (hkw : ∀ c ∈ kw, c ≠ '%' ∧ c ≠ '_') :
    ∀ s : List Char, likeMatch (kw ++ p) s = true ↔
      ∃ a b, s = a ++ b ∧ a.map foldChar = kw.map foldChar ∧ likeMatch p b = true := by
  induction kw with
  | nil =>
    intro s
    simp only [List.nil_append, List.map_nil]
    constructor
    · intro h
      exact ⟨[], s, rfl, rfl, h⟩
    · rintro ⟨a, b, hab, ha, hb⟩
      obtain rfl := List.map_eq_nil_iff.mp ha
      rw [List.nil_append] at hab
      rw [hab]
      exact hb
  | cons c kw' ih =>
    intro s
    obtain ⟨hcp, hcu⟩ := hkw c (by simp)
    have hkw' : ∀ x ∈ kw', x ≠ '%' ∧ x ≠ '_' := fun x hx => hkw x (by simp [hx])
    cases s with
    | nil =>
      rw [List.cons_append, likeMatch_cons_nil c _ hcp]
      constructor
      · intro h
        exact absurd h (by simp)
      · rintro ⟨a, b, hab, ha, hb⟩
        obtain ⟨rfl, rfl⟩ := List.append_eq_nil.mp hab.symm
        simp at ha
    | cons d s2 =>
      rw [List.cons_append, likeMatch_lit c _ d s2 hcp hcu]
      simp only [Bool.and_eq_true, beq_iff_eq, ih hkw' s2]
      constructor
      · rintro ⟨hfold, a, b, hab, ha, hb⟩
        refine ⟨d :: a, b, by rw [hab]; rfl, ?_, hb⟩
        rw [List.map_cons, List.map_cons, ha, hfold]
      · rintro ⟨a, b, hab, ha, hb⟩
        cases a with
        | nil => simp at ha
        | cons x a' =>
          rw [List.cons_append] at hab
          injection hab with h1 h2
          rw [List.map_cons, List.map_cons] at ha
          injection ha with ha1 ha2
          subst h1
          exact ⟨ha1.symm, a', b, h2, ha2, hb⟩

theorem likeMatch_pattern_iff (kw s : List Char) (hkw : ∀ c ∈ kw, c ≠ '%' ∧ c ≠ '_') :
    likeMatch ('%' :: (kw ++ ['%'])) s = true ↔
      ∃ a m b, s = a ++ m ++ b ∧ m.map foldChar = kw.map foldChar := by
  rw [likeMatch_percent_iff]
  constructor
  · rintro ⟨a, rest, hab, hrest⟩
    rw [likeMatch_literal_append_iff kw ['%'] hkw rest] at hrest
    obtain ⟨m, b, hmb, hm, _⟩ := hrest
    exact ⟨a, m, b, by rw [hab, hmb, List.append_assoc], hm⟩
  · rintro ⟨a, m, b, habm, hm⟩
    refine ⟨a, m ++ b, by rw [habm, List.append_assoc], ?_⟩
    rw [likeMatch_literal_append_iff kw ['%'] hkw (m ++ b)]
    exact ⟨m, b, rfl, hm, likeMatch_percent_only b⟩

theorem isPrefixList_iff (p : List Char) :
    ∀ s : List Char, isPrefixList p s = true ↔ ∃ b, s = p ++ b := by
  induction p with
  | nil =>
    intro s
    simp [isPrefixList]
  | cons c p' ih =>
    intro s
    cases s with
    | nil => simp [isPrefixList]
    | cons d s2 =>
      simp only [isPrefixList, Bool.and_eq_true, beq_iff_eq, ih s2, List.cons_append]
      constructor
      · rintro ⟨rfl, b, rfl⟩
        exact ⟨b, rfl⟩
      · rintro ⟨b, hb⟩
        injection hb with h1 h2
        exact ⟨h1.symm, b, h2⟩

theorem containsSub_iff (kw : List Char) :
    ∀ s : List Char, containsSub kw s = true ↔ ∃ a b, s = a ++ kw ++ b := by
  intro s
  induction s with
  | nil =>
    simp only [containsSub, isPrefixList_iff]
    constructor
    · rintro ⟨b, hb⟩
      exact ⟨[], b, by simpa using hb⟩
    · rintro ⟨a, b, hab⟩
      obtain ⟨h1, rfl⟩ := List.append_eq_nil.mp hab.symm
      obtain ⟨rfl, rfl⟩ := List.append_eq_nil.mp h1
      exact ⟨[], rfl⟩
  | cons d s2 ih =>
    simp only [containsSub, Bool.or_eq_true, isPrefixList_iff, ih]
    constructor
    · rintro (⟨b, hb⟩ | ⟨a, b, hab⟩)
      · exact ⟨[], b, by simpa using hb⟩
      · exact ⟨d :: a, b, by rw [hab]; rfl⟩
    · rintro ⟨a, b, hab⟩
      cases a with
      | nil =>
        left
        rw [List.nil_append] at hab
        exact ⟨b, hab⟩
      | cons x a' =>
        right
        rw [List.cons_append, List.cons_append] at hab
        injection hab with h1 h2
        exact ⟨a', b, h2⟩

theorem likeMatch_eq_containsCI (kw s : String)
    (hp : '%' ∉ kw.data) (hu : '_' ∉ kw.data) :
    likeMatch ('%' :: kw.data ++ ['%']) s.data = containsCI kw s := by
  have hkw : ∀ c ∈ kw.data, c ≠ '%' ∧ c ≠ '_' :=
    fun c hc => ⟨fun e => hp (e ▸ hc), fun e => hu (e ▸ hc)⟩
  rw [Bool.eq_iff_iff]
  rw [show ('%' :: kw.data ++ ['%']) = '%' :: (kw.data ++ ['%']) from rfl]
  rw [likeMatch_pattern_iff kw.data s.data hkw]
  rw [containsCI, containsSub_iff]
  constructor
  · rintro ⟨a, m, b, habm, hm⟩
    refine ⟨a.map foldChar, b.map foldChar, ?_⟩
    rw [habm]
    simp [hm]
  · rintro ⟨t, u, h⟩
    rw [show t ++ kw.data.map foldChar ++ u = t ++ (kw.data.map foldChar ++ u) from
      (List.append_assoc t _ u)] at h
    obtain ⟨a, rest, hsplit, hat, hrest⟩ := List.map_eq_append_iff.mp h
    obtain ⟨m, b, hsplit2, hm, hb⟩ := List.map_eq_append_iff.mp hrest
    refine ⟨a, m, b, ?_, hm⟩
    rw [hsplit, hsplit2, List.append_assoc]

/-- C2 (amended): for every catalog state and every non-empty keyword
that contains no LIKE wildcard ('%' or '_'), listing with skip 0 and a
positive limit at least the number of matching repositories returns
exactly the repositories whose name contains the keyword as an ASCII
case-insensitive substring (SQLite's default LIKE comparison), in
catalog order, each with its full tag set. -/
theorem claim2_keyword_filter_amended (db : IndexDB) (kw : String) (limit : Int)
    (hk : kw ≠ "") (hp : '%' ∉ kw.data) (hu : '_' ∉ kw.data)
    (h1 : 1 ≤ limit)
    (hlim : (db.repositories.filter (fun r => containsCI kw r)).length ≤ limit.toNat) :
    IndexService.GetPage ⟨kw, 0, limit⟩ db
      = (db.repositories.filter (fun r => containsCI kw r)).map
          (fun r => { Repository := r,
                      Tags := db.tags.filter (fun row => row.Repository == r) }) := by
  have hd : kw.data ≠ [] := by
    intro h
    apply hk
    cases kw
    simp only at h
    rw [h]
  have hlen : kw.length > 0 := by
    cases kw with
    | mk d => exact List.length_pos.mpr (by simpa using hd)
  have h0 : ¬ ((0 : Int) < 0) := by omega
  have hl1 : ¬ (limit < 1) := by omega
  simp only [IndexService.GetPage, prepare_eval, if_neg h0, if_neg hl1, if_pos hlen]
  have hfc : db.repositories.filter (fun r => likeMatch ('%' :: kw.data ++ ['%']) r.data)
      = db.repositories.filter (fun r => containsCI kw r) :=
    List.filter_congr (fun r _ => likeMatch_eq_containsCI kw r hp hu)
  rw [hfc]
  simp only [Int.toNat_zero, List.drop_zero]
  rw [List.take_of_length_le hlim]

/-- C2 counterexample: the keyword filter is NOT a case-sensitive
substring match, and the claim's universal form also fails to account
for LIKE wildcards in the keyword and for pagination.  Concretely:
keyword "alpha" returns repository "ALPHA" although "ALPHA" does not
contain "alpha" case-sensitively; keyword "al_ha" returns "alpha"
although "al_ha" is not a substring of "alpha" even case-insensitively;
and with limit 1 only one of the two matching repositories is
returned. -/
theorem claim2_keyword_filter_counterexample :
    (IndexService.GetPage ⟨"alpha", 0, 20⟩ ⟨["ALPHA"], []⟩ = [⟨"ALPHA", []⟩] ∧
      containsCS "alpha" "ALPHA" = false) ∧
    (IndexService.GetPage ⟨"al_ha", 0, 20⟩ ⟨["alpha"], []⟩ = [⟨"alpha", []⟩] ∧
      containsCI "al_ha" "alpha" = false) ∧
    (IndexService.GetPage ⟨"a", 0, 1⟩ ⟨["ab", "ac"], []⟩).length = 1 := by
  decide

/-- Witness for C2 (amended) at the spec's example: repositories
"alpha/app", "beta/app", "alpha/tool" with keyword "alpha" yield exactly
the two repositories containing "alpha". -/
theorem claim2_keyword_filter_amended_witness :
    IndexService.GetPage ⟨"alpha", 0, 20⟩ ⟨["alpha/app", "beta/app", "alpha/tool"], []⟩
      = [⟨"alpha/app", []⟩, ⟨"alpha/tool", []⟩] := by
  have h := claim2_keyword_filter_amended ⟨["alpha/app", "beta/app", "alpha/tool"], []⟩
    "alpha" 20 (by decide) (by decide) (by decide) (by decide) (by decide)
  rw [h]
  decide
